import Mathlib

/-!
Shallow embedding of the LongtermMemory-MCP record lifecycle engine.

Sources embedded here:
* `src/decay.ts` — `DECAY_CONFIG`, `DecayEngine` (computeDecay, shouldProtect,
  shouldWriteDecay, computeReinforcement) and `cosineSimilarity` (shipped in the
  same file as the embeddings module in this snapshot).
* `src/backup.ts` (second module, class `MemoryStore`) — save, getById, search,
  update, delete, deleteAll, applyDecayAndReinforcement.

Modelling conventions:
* JavaScript numbers are modelled as real numbers (exact arithmetic).
* Timestamps (ISO strings / Date values in the source) are modelled as real
  numbers of milliseconds since the epoch.
* `Math.round` rounds half towards positive infinity, i.e. `jsRound x = ⌊x + 1/2⌋`.
* The SQLite table is modelled as a list of records in insertion order (the
  scans `SELECT ... FROM memories` and the dedup lookups return rows in that
  order for this append-only schema).
* External collaborators (the SHA-256 digest and the embedder) are passed in as
  function parameters `hash : String → String` and `embed : String → List ℝ`;
  fresh UUIDs and clock readings are likewise passed in as parameters.
* The only metadata key the store itself reads or writes is
  `reinforcement_accum`; metadata is modelled by that optional field.
-/

open scoped Classical
open scoped BigOperators
open scoped List

namespace LTM

/-- jsRound models JavaScript Math.round: floor of x + 1/2 (half rounds up). -/
noncomputable def jsRound (x : ℝ) : ℤ := ⌊x + 1/2⌋

namespace DecayEngine

/-- DECAY_CONFIG.halfLifeDays lookup with the source `?? general` fallback. -/
noncomputable def halfLifeDays (memoryType : String) : ℝ :=
  if memoryType = "general" then 60
  else if memoryType = "conversation" then 45
  else if memoryType = "fact" then 120
  else if memoryType = "preference" then 90
  else if memoryType = "task" then 30
  else if memoryType = "ephemeral" then 10
  else 60

/-- DECAY_CONFIG.floors lookup with the source `?? general` fallback. -/
noncomputable def floors (memoryType : String) : ℝ :=
  if memoryType = "general" then 1
  else if memoryType = "conversation" then 2
  else if memoryType = "fact" then 3
  else if memoryType = "preference" then 2
  else if memoryType = "task" then 1
  else if memoryType = "ephemeral" then 1
  else 1

/-- DECAY_CONFIG.protectedTags. -/
def protectedTags : List String := ["core", "identity", "pinned"]

/-- DECAY_CONFIG.writebackStep (0.5 in the source). -/
noncomputable def writebackStep : ℝ := 1/2

/-- DECAY_CONFIG.reinforcementStep (0.1 in the source). -/
noncomputable def reinforcementStep : ℝ := 1/10

/-- DECAY_CONFIG.reinforcementWritebackStep (0.5 in the source). -/
noncomputable def reinforcementWritebackStep : ℝ := 1/2

/-- DECAY_CONFIG.maxImportance. -/
noncomputable def maxImportance : ℝ := 10

/-- DecayEngine.roundToHalf: Math.round(value * 2) / 2. -/
noncomputable def roundToHalf (value : ℝ) : ℝ := (jsRound (value * 2) : ℝ) / 2

/-- DecayEngine.computeDecay: exponential half-life decay, rounded to the
nearest half and clamped below by the category floor; idle times that are not
positive leave the importance unchanged. -/
noncomputable def computeDecay (importance daysIdle : ℝ) (memoryType : String) : ℝ :=
  let halfLife := halfLifeDays memoryType
  let flr := floors memoryType
  if daysIdle ≤ 0 ∨ halfLife ≤ 0 then importance
  else max flr (roundToHalf (importance * (1/2 : ℝ) ^ (daysIdle / halfLife)))

/-- DecayEngine.shouldProtect: some tag is in the protected set. -/
def shouldProtect (tags : List String) : Bool :=
  tags.any (fun tag => protectedTags.contains tag)

/-- DecayEngine.shouldWriteDecay: the decay delta reaches the write-back step. -/
noncomputable def shouldWriteDecay (oldImportance newImportance : ℝ) : Prop :=
  oldImportance - newImportance ≥ writebackStep

/-- Result record of DecayEngine.computeReinforcement. -/
structure ReinforcementResult where
  newAccum : ℝ
  shouldWrite : Bool
  newImportance : Option ℝ

/-- DecayEngine.computeReinforcement: add the fixed step to the accumulator;
commit (capped and rounded) once the accumulator reaches the write-back step. -/
noncomputable def computeReinforcement (importance currentAccum : ℝ) :
    ReinforcementResult :=
  let accum := currentAccum + reinforcementStep
  if accum ≥ reinforcementWritebackStep then
    { newAccum := 0, shouldWrite := true,
      newImportance := some (min maxImportance (roundToHalf (importance + accum))) }
  else
    { newAccum := accum, shouldWrite := false, newImportance := none }

end DecayEngine

/-- Errors raised by the store and the vector math (thrown `Error`s in the
source, carrying the colliding id resp. the two lengths in their messages). -/
inductive StoreErr where
  | duplicateContent (existingId : String)
  | dimensionMismatch (lenA lenB : ℕ)
deriving DecidableEq

/-- Value computed by cosineSimilarity once the length guard has passed: one
loop over the indices of `a` accumulating the dot product and both squared
norms, then dot / (sqrt normA * sqrt normB), with 0 for a zero denominator. -/
noncomputable def cosineSimilarityVal (a b : List ℝ) : ℝ :=
  let dotProduct := ∑ i ∈ Finset.range a.length, a.getD i 0 * b.getD i 0
  let normA := ∑ i ∈ Finset.range a.length, a.getD i 0 * a.getD i 0
  let normB := ∑ i ∈ Finset.range a.length, b.getD i 0 * b.getD i 0
  let denominator := Real.sqrt normA * Real.sqrt normB
  if denominator = 0 then 0 else dotProduct / denominator

/-- cosineSimilarity: throws on a length mismatch, otherwise returns the
cosine of the two vectors. -/
noncomputable def cosineSimilarity (a b : List ℝ) : Except StoreErr ℝ :=
  if a.length ≠ b.length then .error (.dimensionMismatch a.length b.length)
  else .ok (cosineSimilarityVal a b)

/-- Metadata of a record. The store itself only ever reads or writes the
`reinforcement_accum` key (read as `?? 0`, written on every maintenance pass);
all other keys are carried verbatim and never inspected, so metadata is
modelled by that single optional field. -/
structure Metadata where
  reinforcement_accum : Option ℝ

/-- A stored record, mirroring the `Memory` interface of `types.ts`
(timestamps as milliseconds, metadata as above). -/
structure Memory where
  id : String
  content : String
  contentHash : String
  metadata : Metadata
  embedding : List ℝ
  tags : List String
  importance : ℝ
  memoryType : String
  createdAt : ℝ
  updatedAt : ℝ
  lastAccessed : ℝ

/-- A search hit, mirroring the `SearchResult` interface of `types.ts`. -/
structure SearchResult where
  memory : Memory
  score : ℝ

/-- The memories table, as a list of rows in insertion order. -/
abbrev Store := List Memory

namespace MemoryStore

/-- Effect of `UPDATE memories SET ... WHERE id = ?`: rewrite every row whose
id matches. -/
def updateRow (id : String) (f : Memory → Memory) (s : Store) : Store :=
  s.map fun m => if m.id = id then f m else m

/-- Days idle used by applyDecayAndReinforcement:
`Math.max(0, (now - lastAccessed) / (1000*60*60*24))`. -/
noncomputable def daysIdle (now : ℝ) (m : Memory) : ℝ :=
  max 0 ((now - m.lastAccessed) / 86400000)

/-- The stored reinforcement accumulator:
`(memory.metadata as ...).reinforcement_accum as number ?? 0`. -/
noncomputable def accumOf (m : Memory) : ℝ :=
  m.metadata.reinforcement_accum.getD 0

/-- MemoryStore.applyDecayAndReinforcement: the lazy maintenance pass.
Protected records are returned untouched; otherwise decay is computed and
committed when it reaches the write-back step, then reinforcement runs on the
(possibly decayed) importance, then last_accessed is set to now; every write
in the source is an `UPDATE ... WHERE id = ?` against the table. Returns the
updated record and the updated table. -/
noncomputable def applyDecayAndReinforcement (now : ℝ) (m : Memory) (s : Store) :
    Memory × Store :=
  if DecayEngine.shouldProtect m.tags then (m, s)
  else
    let d := daysIdle now m
    let decayed := DecayEngine.computeDecay m.importance d m.memoryType
    let impAfterDecay :=
      if DecayEngine.shouldWriteDecay m.importance decayed then decayed
      else m.importance
    let s1 :=
      if DecayEngine.shouldWriteDecay m.importance decayed then
        updateRow m.id (fun row => { row with importance := decayed }) s
      else s
    let r := DecayEngine.computeReinforcement impAfterDecay (accumOf m)
    let newMeta : Metadata := { m.metadata with reinforcement_accum := some r.newAccum }
    let impFinal :=
      match r.shouldWrite, r.newImportance with
      | true, some v => v
      | _, _ => impAfterDecay
    let s2 :=
      match r.shouldWrite, r.newImportance with
      | true, some v =>
          updateRow m.id (fun row => { row with importance := v, metadata := newMeta }) s1
      | _, _ => updateRow m.id (fun row => { row with metadata := newMeta }) s1
    let s3 := updateRow m.id (fun row => { row with lastAccessed := now }) s2
    ({ m with importance := impFinal, metadata := newMeta, lastAccessed := now }, s3)

/-- MemoryStore.save. The digest function, the embedder, the fresh UUID and
the clock reading are passed in as parameters; the dedup lookup
`SELECT id FROM memories WHERE content_hash = ?` steps to the first matching
row in insertion order. On the duplicate path the function fails before the
embedder is consulted and before any row is inserted. -/
noncomputable def save (hash : String → String) (embed : String → List ℝ)
    (newId : String) (now : ℝ) (content : String) (metadata : Metadata)
    (tags : List String) (importance : ℝ) (memoryType : String) (s : Store) :
    Except StoreErr (Memory × Store) :=
  let clampedImportance := max 1 (min 10 importance)
  let h := hash content
  match s.find? (fun m => m.contentHash = h) with
  | some existing => .error (.duplicateContent existing.id)
  | none =>
      let embedding := embed content
      let m : Memory :=
        { id := newId, content := content, contentHash := h, metadata := metadata,
          embedding := embedding, tags := tags, importance := clampedImportance,
          memoryType := memoryType, createdAt := now, updatedAt := now,
          lastAccessed := now }
      .ok (m, s ++ [m])

/-- MemoryStore.getById: find the row, and on a hit run the maintenance pass
(whose writes are persisted) before returning. -/
noncomputable def getById (now : ℝ) (id : String) (s : Store) :
    Option Memory × Store :=
  match s.find? (fun m => m.id = id) with
  | some m =>
      let p := applyDecayAndReinforcement now m s
      (some p.1, p.2)
  | none => (none, s)

/-- The scan loop of MemoryStore.search: score every row against the query
embedding, keep rows whose score reaches the threshold (with their scores),
aborting with the similarity error on the first offending row. -/
noncomputable def scanCandidates (queryEmbedding : List ℝ) (threshold : ℝ) :
    Store → Except StoreErr (List (Memory × ℝ))
  | [] => .ok []
  | m :: rest => do
      let score ← cosineSimilarity queryEmbedding m.embedding
      let tail ← scanCandidates queryEmbedding threshold rest
      if score ≥ threshold then pure ((m, score) :: tail) else pure tail

/-- The maintenance fold of MemoryStore.search: run the maintenance pass over
each kept candidate in scan order, threading the table through the writes. -/
noncomputable def touchAll (now : ℝ) :
    List (Memory × ℝ) → Store → List SearchResult × Store
  | [], s => ([], s)
  | (m, score) :: rest, s =>
      let p := applyDecayAndReinforcement now m s
      let q := touchAll now rest p.2
      (⟨p.1, score⟩ :: q.1, q.2)

/-- MemoryStore.search: embed the query once, scan all rows for candidates at
or above the threshold, run the maintenance pass on each candidate, then sort
descending by score (JavaScript sort is stable) and truncate to the limit. -/
noncomputable def search (embed : String → List ℝ) (now : ℝ) (query : String)
    (limit : ℕ) (threshold : ℝ) (s : Store) :
    Except StoreErr (List SearchResult × Store) := do
  let queryEmbedding := embed query
  let cands ← scanCandidates queryEmbedding threshold s
  let scored := touchAll now cands s
  pure (((scored.1.mergeSort fun a b => b.score ≤ a.score).take limit), scored.2)

/-- MemoryStore.update: fetch the record (running the maintenance pass with
its writes), overlay the supplied fields, re-hash/re-embed when the content
really changed (with the dedup check excluding the record itself), and write
every column except created_at back. The two clock readings (inside getById
and for the update itself) are separate parameters. -/
noncomputable def update (hash : String → String) (embed : String → List ℝ)
    (nowGet nowUpd : ℝ) (id : String) (content? : Option String)
    (metadata? : Option Metadata) (tags? : Option (List String))
    (importance? : Option ℝ) (memoryType? : Option String) (s : Store) :
    Except StoreErr (Option Memory × Store) :=
  match getById nowGet id s with
  | (none, s1) => .ok (none, s1)
  | (some existing, s1) =>
      let newContent := content?.getD existing.content
      let newMetadata := metadata?.getD existing.metadata
      let newTags := tags?.getD existing.tags
      let newImportance :=
        match importance? with
        | some i => max 1 (min 10 i)
        | none => existing.importance
      let newMemoryType := memoryType?.getD existing.memoryType
      let hashEmb : Except StoreErr (String × List ℝ) :=
        match content? with
        | some c =>
            if c ≠ existing.content then
              let newHash := hash c
              match s1.find? (fun m => m.contentHash = newHash ∧ m.id ≠ id) with
              | some other => .error (.duplicateContent other.id)
              | none => .ok (newHash, embed c)
            else .ok (existing.contentHash, existing.embedding)
        | none => .ok (existing.contentHash, existing.embedding)
      match hashEmb with
      | .error e => .error e
      | .ok (newHash, newEmbedding) =>
          let written : Memory :=
            { id := id, content := newContent, contentHash := newHash,
              metadata := newMetadata, embedding := newEmbedding, tags := newTags,
              importance := newImportance, memoryType := newMemoryType,
              createdAt := existing.createdAt, updatedAt := nowUpd,
              lastAccessed := nowUpd }
          let s2 := updateRow id (fun row =>
            { row with
              content := newContent, contentHash := newHash,
              metadata := newMetadata, embedding := newEmbedding, tags := newTags,
              importance := newImportance, memoryType := newMemoryType,
              updatedAt := nowUpd, lastAccessed := nowUpd }) s1
          .ok (some written, s2)

/-- MemoryStore.delete: `DELETE FROM memories WHERE id = ?`, reporting whether
the count changed. -/
def delete (id : String) (s : Store) : Bool × Store :=
  let s' := s.filter (fun m => ¬ m.id = id)
  (s'.length ≠ s.length, s')

/-- MemoryStore.deleteAll: remove every row, returning the prior count. -/
def deleteAll (s : Store) : ℕ × Store := (s.length, [])

/-- The record value returned by applyDecayAndReinforcement (its first
component does not depend on the table argument). -/
noncomputable def maintainMemory (now : ℝ) (m : Memory) : Memory :=
  (applyDecayAndReinforcement now m []).1

/-- The effect of one maintenance pass for the record value `m` on a table
row matching `m.id`: the composition of the per-column UPDATEs performed by
applyDecayAndReinforcement (nothing for protected records). -/
noncomputable def applyDARow (now : ℝ) (m row : Memory) : Memory :=
  if DecayEngine.shouldProtect m.tags then row
  else
    let d := daysIdle now m
    let decayed := DecayEngine.computeDecay m.importance d m.memoryType
    let impAfterDecay :=
      if DecayEngine.shouldWriteDecay m.importance decayed then decayed
      else m.importance
    let r := DecayEngine.computeReinforcement impAfterDecay (accumOf m)
    let newMeta : Metadata := { m.metadata with reinforcement_accum := some r.newAccum }
    let row1 :=
      if DecayEngine.shouldWriteDecay m.importance decayed then
        { row with importance := decayed }
      else row
    let row2 :=
      match r.shouldWrite, r.newImportance with
      | true, some v => { row1 with importance := v, metadata := newMeta }
      | _, _ => { row1 with metadata := newMeta }
    { row2 with lastAccessed := now }

end MemoryStore

/-- The store states reachable through the public operations, starting from
an empty table, with arbitrary digest functions, embedders, fresh ids, clock
readings and arguments at every step. -/
inductive Reachable : Store → Prop where
  | nil : Reachable []
  | save {s s' : Store} {hash embed newId now content metadata tags importance memoryType m} :
      Reachable s →
      MemoryStore.save hash embed newId now content metadata tags importance
        memoryType s = .ok (m, s') →
      Reachable s'
  | get {s : Store} (now : ℝ) (id : String) :
      Reachable s → Reachable (MemoryStore.getById now id s).2
  | search {s s' : Store} {embed now query limit threshold r} :
      Reachable s →
      MemoryStore.search embed now query limit threshold s = .ok (r, s') →
      Reachable s'
  | update {s s' : Store} {hash embed nowGet nowUpd id content? metadata? tags? importance? memoryType? om} :
      Reachable s →
      MemoryStore.update hash embed nowGet nowUpd id content? metadata? tags?
        importance? memoryType? s = .ok (om, s') →
      Reachable s'
  | delete {s : Store} (id : String) :
      Reachable s → Reachable (MemoryStore.delete id s).2
  | deleteAll {s : Store} :
      Reachable s → Reachable (MemoryStore.deleteAll s).2

/-- The importance-bounds invariant: every stored record's importance lies
between 1 and 10. -/
def Inv (s : Store) : Prop :=
  ∀ m ∈ s, 1 ≤ m.importance ∧ m.importance ≤ 10

/-! ## Concrete sample data used to instantiate the theorems -/

/-- A stand-in content digest (any deterministic function works here). -/
def hash0 : String → String := fun s => s

/-- A stand-in one-dimensional embedder. -/
noncomputable def embed0 : String → List ℝ := fun _ => [1]

/-- Empty metadata (no reinforcement_accum key). -/
def mdNone : Metadata := ⟨none⟩

/-- The record produced by saving "hello" with the sample collaborators. -/
noncomputable def mHello : Memory :=
  ⟨"id0", "hello", "hello", mdNone, [1], [], 5, "general", 0, 0, 0⟩

/-- The record mHello after one maintenance pass at time 0: no decay (zero
idle time), reinforcement accumulator advanced to 0.1, no importance write. -/
noncomputable def mHelloTouched : Memory :=
  ⟨"id0", "hello", "hello", ⟨some (1/10)⟩, [1], [], 5, "general", 0, 0, 0⟩

/-- A record carrying the protected tag "core". -/
noncomputable def mProt : Memory :=
  ⟨"p1", "pc", "pc", mdNone, [1], ["core"], 5, "general", 0, 0, 0⟩

/-- A record whose stored embedding has length 0. -/
noncomputable def mMis : Memory :=
  ⟨"e1", "mc", "mc", mdNone, [], [], 5, "general", 0, 0, 0⟩

/-- The record produced by saving with importance 1 and category "fact". -/
noncomputable def mFact : Memory :=
  ⟨"f1", "fc", "fc", mdNone, [1], [], 1, "fact", 0, 0, 0⟩

/-- The record produced by saving with metadata whose reinforcement_accum
key is 7. -/
noncomputable def mAccum : Memory :=
  ⟨"a1", "ac", "ac", ⟨some 7⟩, [1], [], 5, "general", 0, 0, 0⟩

/-- A record of importance 10 idle since the epoch with accumulator 0.4. -/
noncomputable def mIdle : Memory :=
  ⟨"w1", "wc", "wc", ⟨some (2/5)⟩, [1], [], 10, "general", 0, 0, 0⟩

/-! ## Elementary facts about the decay policy -/

theorem halfLifeDays_pos (t : String) : 0 < DecayEngine.halfLifeDays t := by
  unfold DecayEngine.halfLifeDays
  split_ifs <;> norm_num

theorem one_le_floors (t : String) : 1 ≤ DecayEngine.floors t := by
  unfold DecayEngine.floors
  split_ifs <;> norm_num

theorem floors_le_three (t : String) : DecayEngine.floors t ≤ 3 := by
  unfold DecayEngine.floors
  split_ifs <;> norm_num

theorem roundToHalf_le (y : ℝ) : DecayEngine.roundToHalf y ≤ y + 1/4 := by
  unfold DecayEngine.roundToHalf jsRound
  have h := Int.floor_le (y * 2 + 1/2)
  linarith

theorem lt_roundToHalf (y : ℝ) : y - 1/4 < DecayEngine.roundToHalf y := by
  unfold DecayEngine.roundToHalf jsRound
  have h := Int.sub_one_lt_floor (y * 2 + 1/2)
  linarith

theorem roundToHalf_mono {y z : ℝ} (h : y ≤ z) :
    DecayEngine.roundToHalf y ≤ DecayEngine.roundToHalf z := by
  unfold DecayEngine.roundToHalf jsRound
  have h2 : (⌊y * 2 + 1/2⌋ : ℤ) ≤ ⌊z * 2 + 1/2⌋ := Int.floor_mono (by linarith)
  have h3 : ((⌊y * 2 + 1/2⌋ : ℤ) : ℝ) ≤ ((⌊z * 2 + 1/2⌋ : ℤ) : ℝ) := by
    exact_mod_cast h2
  linarith

/-- C2 (amended): for a fixed category and importance at or above the
category floor, computeDecay is antitone in the idle time over positive idle
times: 0 < d1 ≤ d2 implies computeDecay x d2 c ≤ computeDecay x d1 c. (As
stated over all d1 ≤ d2 the claim fails: from a non-positive d1 to a small
positive d2, rounding to the nearest half can amplify the importance — see
the counterexample.) -/
theorem claim_C2_computeDecay_antitone (c : String) (x d1 d2 : ℝ)
    (hx : DecayEngine.floors c ≤ x) (h1 : 0 < d1) (h12 : d1 ≤ d2) :
    DecayEngine.computeDecay x d2 c ≤ DecayEngine.computeDecay x d1 c := by
  have hHL := halfLifeDays_pos c
  have hx0 : 0 ≤ x := le_trans (by linarith [one_le_floors c]) hx
  unfold DecayEngine.computeDecay
  rw [if_neg, if_neg]
  · have hexp : d1 / DecayEngine.halfLifeDays c ≤ d2 / DecayEngine.halfLifeDays c :=
      (div_le_div_iff_of_pos_right hHL).mpr h12
    have hf : ((1:ℝ)/2) ^ (d2 / DecayEngine.halfLifeDays c)
        ≤ ((1:ℝ)/2) ^ (d1 / DecayEngine.halfLifeDays c) :=
      Real.rpow_le_rpow_of_exponent_ge (by norm_num) (by norm_num) hexp
    exact max_le_max le_rfl
      (roundToHalf_mono (mul_le_mul_of_nonneg_left hf hx0))
  · push_neg
    exact ⟨h1, hHL⟩
  · push_neg
    exact ⟨lt_of_lt_of_le h1 h12, hHL⟩

/-- C2 witness: the amended antitonicity at category "general", importance 5,
idle times 1 and 2 days. -/
theorem claim_C2_computeDecay_antitone_witness :
    DecayEngine.floors "general" ≤ (5:ℝ) ∧ ((0:ℝ) < 1 ∧ (1:ℝ) ≤ 2) ∧
    DecayEngine.computeDecay 5 2 "general" ≤ DecayEngine.computeDecay 5 1 "general" :=
  ⟨by unfold DecayEngine.floors; norm_num, ⟨by norm_num, by norm_num⟩,
    claim_C2_computeDecay_antitone "general" 5 1 2
      (by unfold DecayEngine.floors; norm_num) (by norm_num) (by norm_num)⟩

/-- C2 counterexample: in category "general", importance 5.3 (above the
floor 1) and idle times d1 = 0 ≤ d2 = 3/5 of a day: computeDecay leaves the
importance at 5.3 for zero idle time but returns 5.5 — larger — for the
positive idle time, because 5.3 · 2^(-1/100) ≈ 5.29 rounds up to 5.5. So
computeDecay is not antitone over all d1 ≤ d2. -/
theorem claim_C2_counterexample :
    DecayEngine.floors "general" ≤ (53/10 : ℝ) ∧ ((0:ℝ) ≤ 3/5) ∧
    ¬ (DecayEngine.computeDecay (53/10) (3/5) "general" ≤
        DecayEngine.computeDecay (53/10) 0 "general") := by
  have hgen : DecayEngine.halfLifeDays "general" = 60 := by
    unfold DecayEngine.halfLifeDays; simp
  have hflo : DecayEngine.floors "general" = 1 := by
    unfold DecayEngine.floors; simp
  set f : ℝ := (1/2 : ℝ) ^ ((3/5 : ℝ) / 60) with hfdef
  have hf_nonneg : 0 ≤ f := Real.rpow_nonneg (by norm_num) _
  have hf_le_one : f ≤ 1 :=
    Real.rpow_le_one (by norm_num) (by norm_num) (by positivity)
  have hf_pow : f ^ (100:ℕ) = 1/2 := by
    rw [hfdef, show ((3:ℝ)/5)/60 = ((1:ℝ)/100) from by norm_num,
      ← Real.rpow_natCast ((1/2:ℝ) ^ ((1:ℝ)/100)) 100,
      ← Real.rpow_mul (by norm_num : (0:ℝ) ≤ 1/2),
      show ((1:ℝ)/100) * ((100:ℕ):ℝ) = 1 from by push_cast; norm_num,
      Real.rpow_one]
  have hq : ((105:ℝ)/106) ^ (100:ℕ) ≤ 1/2 := by
    rw [div_pow, div_le_div_iff (by positivity) (by norm_num)]
    norm_num
  have hlow : (105/106 : ℝ) ≤ f := by
    by_contra hcon
    push_neg at hcon
    have hstrict := pow_lt_pow_left hcon hf_nonneg (show (100:ℕ) ≠ 0 from by norm_num)
    rw [hf_pow] at hstrict
    linarith
  have hval : DecayEngine.roundToHalf ((53/10) * f) = 11/2 := by
    unfold DecayEngine.roundToHalf jsRound
    have hfl : ⌊(53/10 : ℝ) * f * 2 + 1/2⌋ = 11 := by
      rw [Int.floor_eq_iff]
      constructor
      · push_cast
        linarith
      · push_cast
        linarith
    rw [hfl]
    norm_num
  have h0 : DecayEngine.computeDecay (53/10) 0 "general" = 53/10 := by
    unfold DecayEngine.computeDecay
    norm_num
  have h1 : DecayEngine.computeDecay (53/10) (3/5) "general" = 11/2 := by
    unfold DecayEngine.computeDecay
    rw [hgen, hflo]
    rw [if_neg (by norm_num)]
    rw [← hfdef, hval]
    norm_num
  refine ⟨by rw [hflo]; norm_num, by norm_num, ?_⟩
  rw [h0, h1]
  norm_num

/-! ## Vector math: cosine similarity -/

theorem listCauchySchwarz (a b : List ℝ) :
    (∑ i ∈ Finset.range a.length, a.getD i 0 * b.getD i 0) ^ 2 ≤
      (∑ i ∈ Finset.range a.length, a.getD i 0 * a.getD i 0) *
      (∑ i ∈ Finset.range a.length, b.getD i 0 * b.getD i 0) := by
  simpa only [pow_two] using
    Finset.sum_mul_sq_le_sq_mul_sq (Finset.range a.length)
      (fun i => a.getD i 0) (fun i => b.getD i 0)

theorem div_sqrt_bounds (dot nA nB : ℝ) (hA : 0 ≤ nA)
    (hcs : dot ^ 2 ≤ nA * nB) (h : Real.sqrt nA * Real.sqrt nB ≠ 0) :
    -1 ≤ dot / (Real.sqrt nA * Real.sqrt nB) ∧
      dot / (Real.sqrt nA * Real.sqrt nB) ≤ 1 := by
  have hsA : 0 ≤ Real.sqrt nA := Real.sqrt_nonneg nA
  have hsB : 0 ≤ Real.sqrt nB := Real.sqrt_nonneg nB
  have hdpos : 0 < Real.sqrt nA * Real.sqrt nB :=
    lt_of_le_of_ne (mul_nonneg hsA hsB) (Ne.symm h)
  have habs : |dot| ≤ Real.sqrt nA * Real.sqrt nB := by
    calc |dot| = Real.sqrt (dot ^ 2) := (Real.sqrt_sq_eq_abs dot).symm
      _ ≤ Real.sqrt (nA * nB) := Real.sqrt_le_sqrt hcs
      _ = Real.sqrt nA * Real.sqrt nB := Real.sqrt_mul hA nB
  obtain ⟨hlo, hhi⟩ := abs_le.mp habs
  constructor
  · rw [le_div_iff hdpos]
    linarith
  · rw [div_le_one hdpos]
    linarith

theorem cosineSimilarityVal_bounds (a b : List ℝ) :
    -1 ≤ cosineSimilarityVal a b ∧ cosineSimilarityVal a b ≤ 1 := by
  unfold cosineSimilarityVal
  by_cases hden : Real.sqrt (∑ i ∈ Finset.range a.length, a.getD i 0 * a.getD i 0) *
      Real.sqrt (∑ i ∈ Finset.range a.length, b.getD i 0 * b.getD i 0) = 0
  · rw [if_pos hden]
    norm_num
  · rw [if_neg hden]
    exact div_sqrt_bounds _ _ _
      (Finset.sum_nonneg fun i _ => mul_self_nonneg _)
      (listCauchySchwarz a b) hden

/-- C9: for equal-length vectors cosineSimilarity succeeds with a value in
the interval from -1 to 1, and whenever either accumulated norm is exactly
zero the value is exactly 0 (not an error). -/
theorem claim_C9_similarity_bounds (a b : List ℝ) (h : a.length = b.length) :
    ∃ r, cosineSimilarity a b = .ok r ∧ (-1 ≤ r ∧ r ≤ 1) ∧
      ((Real.sqrt (∑ i ∈ Finset.range a.length, a.getD i 0 * a.getD i 0) = 0 ∨
        Real.sqrt (∑ i ∈ Finset.range a.length, b.getD i 0 * b.getD i 0) = 0) →
        r = 0) := by
  refine ⟨cosineSimilarityVal a b, ?_, cosineSimilarityVal_bounds a b, ?_⟩
  · unfold cosineSimilarity
    rw [if_neg (by simp [h])]
  · intro hz
    have hden : Real.sqrt (∑ i ∈ Finset.range a.length, a.getD i 0 * a.getD i 0) *
        Real.sqrt (∑ i ∈ Finset.range a.length, b.getD i 0 * b.getD i 0) = 0 := by
      rcases hz with h' | h'
      · rw [h', zero_mul]
      · rw [h', mul_zero]
    unfold cosineSimilarityVal
    rw [if_pos hden]

/-- C9 witness: the vectors with single components 3 and 4. -/
theorem claim_C9_similarity_bounds_witness :
    ∃ r, cosineSimilarity [(3:ℝ)] [(4:ℝ)] = .ok r ∧ (-1 ≤ r ∧ r ≤ 1) ∧
      ((Real.sqrt (∑ i ∈ Finset.range [(3:ℝ)].length,
          [(3:ℝ)].getD i 0 * [(3:ℝ)].getD i 0) = 0 ∨
        Real.sqrt (∑ i ∈ Finset.range [(3:ℝ)].length,
          [(4:ℝ)].getD i 0 * [(4:ℝ)].getD i 0) = 0) → r = 0) :=
  claim_C9_similarity_bounds [(3:ℝ)] [(4:ℝ)] rfl

theorem scanCandidates_mismatch (qe : List ℝ) (threshold : ℝ) :
    ∀ s : Store, (∃ m ∈ s, m.embedding.length ≠ qe.length) →
    ∃ la lb, MemoryStore.scanCandidates qe threshold s =
      .error (.dimensionMismatch la lb)
  | [], h => absurd h (by simp)
  | m :: rest, h => by
    by_cases hm : qe.length = m.embedding.length
    · have hcos : cosineSimilarity qe m.embedding =
          .ok (cosineSimilarityVal qe m.embedding) := by
        unfold cosineSimilarity
        rw [if_neg (by simpa using hm)]
      have htailmem : ∃ mm ∈ rest, mm.embedding.length ≠ qe.length := by
        obtain ⟨m', hm', hlen⟩ := h
        rcases List.mem_cons.mp hm' with rfl | hm'rest
        · exact absurd hm.symm hlen
        · exact ⟨m', hm'rest, hlen⟩
      obtain ⟨la, lb, htail⟩ := scanCandidates_mismatch qe threshold rest htailmem
      refine ⟨la, lb, ?_⟩
      simp only [MemoryStore.scanCandidates]
      rw [hcos]
      simp only [htail]
      rfl
    · refine ⟨qe.length, m.embedding.length, ?_⟩
      have hcos : cosineSimilarity qe m.embedding =
          .error (.dimensionMismatch qe.length m.embedding.length) := by
        unfold cosineSimilarity
        rw [if_pos hm]
      simp only [MemoryStore.scanCandidates]
      rw [hcos]
      rfl

/-- C8: cosineSimilarity fails with a dimension-mismatch error exactly when
the two lengths differ, and when any stored record has an embedding whose
length differs from the query embedding, the whole search call aborts with a
dimension-mismatch error (no partial results are returned). -/
theorem claim_C8_dimension_mismatch_aborts :
    (∀ a b : List ℝ,
      (∃ la lb, cosineSimilarity a b = .error (.dimensionMismatch la lb)) ↔
        a.length ≠ b.length) ∧
    (∀ (embed : String → List ℝ) (now : ℝ) (query : String) (limit : ℕ)
      (threshold : ℝ) (s : Store),
      (∃ m ∈ s, m.embedding.length ≠ (embed query).length) →
      ∃ la lb, MemoryStore.search embed now query limit threshold s =
        .error (.dimensionMismatch la lb)) := by
  constructor
  · intro a b
    constructor
    · rintro ⟨la, lb, herr⟩ heq
      unfold cosineSimilarity at herr
      rw [if_neg (by simp [heq])] at herr
      exact Except.noConfusion herr
    · intro hne
      refine ⟨a.length, b.length, ?_⟩
      unfold cosineSimilarity
      rw [if_pos hne]
  · intro embed now query limit threshold s hmem
    obtain ⟨la, lb, hscan⟩ := scanCandidates_mismatch (embed query) threshold s hmem
    refine ⟨la, lb, ?_⟩
    simp only [MemoryStore.search, hscan]
    rfl

/-- C8 witness: a one-component query vector against an empty stored vector,
and a search over a store holding a record with an empty embedding. -/
theorem claim_C8_dimension_mismatch_aborts_witness :
    ((∃ la lb, cosineSimilarity [(0:ℝ)] ([] : List ℝ) =
        .error (.dimensionMismatch la lb)) ↔
      [(0:ℝ)].length ≠ ([] : List ℝ).length) ∧
    (∃ la lb, MemoryStore.search embed0 0 "q" 5 (3/10) [mMis] =
      .error (.dimensionMismatch la lb)) :=
  ⟨claim_C8_dimension_mismatch_aborts.1 [(0:ℝ)] ([] : List ℝ),
    claim_C8_dimension_mismatch_aborts.2 embed0 0 "q" 5 (3/10) [mMis]
      ⟨mMis, by simp, by simp [mMis, embed0]⟩⟩

/-! ## Content-addressed deduplication on save -/

theorem save_hello_eval :
    MemoryStore.save hash0 embed0 "id0" 0 "hello" mdNone [] 5 "general" [] =
      .ok (mHello, [mHello]) := by
  unfold MemoryStore.save hash0 embed0 mdNone mHello
  simp only [List.find?_nil]
  rw [show max 1 (min 10 (5:ℝ)) = 5 by
    rw [min_eq_right (by norm_num : (5:ℝ) ≤ 10), max_eq_right (by norm_num : (1:ℝ) ≤ 5)]]
  rfl

/-- C1: (i) whenever some stored record's digest equals the digest of the
content being saved, save fails with a duplicate-content error carrying an
already-stored record's id having that digest, for every embedder (in
particular the embedder is never consulted and, the result being an error,
no record is inserted); (ii) after a successful save, saving the identical
content again — with any embedder, id, clock reading and other arguments —
always fails with a duplicate-content error carrying the id returned by the
first save. -/
theorem claim_C1_save_dedup :
    (∀ (hash : String → String) (newId : String) (now : ℝ) (content : String)
      (md : Metadata) (tags : List String) (imp : ℝ) (ty : String) (s : Store),
      (∃ m ∈ s, m.contentHash = hash content) →
      ∃ ex ∈ s, ex.contentHash = hash content ∧
        ∀ embed' : String → List ℝ,
          MemoryStore.save hash embed' newId now content md tags imp ty s =
            .error (.duplicateContent ex.id)) ∧
    (∀ (hash : String → String) (embed₁ : String → List ℝ) (newId₁ : String)
      (now₁ : ℝ) (content : String) (md₁ : Metadata) (tags₁ : List String)
      (imp₁ : ℝ) (ty₁ : String) (s : Store) (m : Memory) (s' : Store),
      MemoryStore.save hash embed₁ newId₁ now₁ content md₁ tags₁ imp₁ ty₁ s =
        .ok (m, s') →
      ∀ (embed₂ : String → List ℝ) (newId₂ : String) (now₂ : ℝ) (md₂ : Metadata)
        (tags₂ : List String) (imp₂ : ℝ) (ty₂ : String),
        MemoryStore.save hash embed₂ newId₂ now₂ content md₂ tags₂ imp₂ ty₂ s' =
          .error (.duplicateContent m.id)) := by
  constructor
  · intro hash newId now content md tags imp ty s hex
    have hsome : (s.find? (fun m => m.contentHash = hash content)).isSome := by
      rw [List.find?_isSome]
      obtain ⟨m, hm, hh⟩ := hex
      exact ⟨m, hm, by simpa using hh⟩
    obtain ⟨ex, hfind⟩ := Option.isSome_iff_exists.mp hsome
    refine ⟨ex, List.mem_of_find?_eq_some hfind,
      by simpa using List.find?_some hfind, ?_⟩
    intro embed'
    simp only [MemoryStore.save]
    rw [hfind]
  · intro hash embed₁ newId₁ now₁ content md₁ tags₁ imp₁ ty₁ s m s' hok
    intro embed₂ newId₂ now₂ md₂ tags₂ imp₂ ty₂
    simp only [MemoryStore.save] at hok
    rcases hfind : s.find? (fun mm => mm.contentHash = hash content) with _ | ex
    · rw [hfind] at hok
      simp only [Except.ok.injEq, Prod.mk.injEq] at hok
      obtain ⟨hm, hs'⟩ := hok
      simp only [MemoryStore.save]
      have hfind' : (s'.find? (fun mm => mm.contentHash = hash content)) = some m := by
        rw [← hs', ← hm, List.find?_append, hfind]
        simp
      rw [hfind']
    · rw [hfind] at hok
      exact Except.noConfusion hok

/-- C1 witness: saving "hello" twice into an empty store with the sample
digest and embedder: the first save succeeds producing id "id0", the second
fails with a duplicate-content error naming "id0"; likewise a direct save of
"hello" into a store already holding that digest fails naming the holder. -/
theorem claim_C1_save_dedup_witness :
    (∃ ex ∈ [mHello], ex.contentHash = hash0 "hello" ∧
      ∀ embed' : String → List ℝ,
        MemoryStore.save hash0 embed' "id1" 1 "hello" mdNone [] 5 "general" [mHello] =
          .error (.duplicateContent ex.id)) ∧
    MemoryStore.save hash0 embed0 "id1" 1 "hello" mdNone [] 5 "general" [mHello] =
      .error (.duplicateContent "id0") :=
  ⟨claim_C1_save_dedup.1 hash0 "id1" 1 "hello" mdNone [] 5 "general" [mHello]
      ⟨mHello, by simp, by simp [mHello, hash0]⟩,
    claim_C1_save_dedup.2 hash0 embed0 "id0" 0 "hello" mdNone [] 5 "general" []
      mHello [mHello] save_hello_eval embed0 "id1" 1 mdNone [] 5 "general"⟩

/-! ## Structure of the maintenance pass -/

theorem updateRow_comp (id : String) (f g : Memory → Memory)
    (hg : ∀ row, (g row).id = row.id) (s : Store) :
    MemoryStore.updateRow id f (MemoryStore.updateRow id g s) =
      MemoryStore.updateRow id (fun row => f (g row)) s := by
  unfold MemoryStore.updateRow
  rw [List.map_map]
  apply List.map_congr_left
  intro a _
  by_cases h : a.id = id
  · simp [Function.comp, h, hg a]
  · simp [Function.comp, h]

theorem updateRow_id_fun (id : String) (s : Store) :
    MemoryStore.updateRow id (fun row => row) s = s := by
  unfold MemoryStore.updateRow
  simp

theorem applyDARow_id (now : ℝ) (m row : Memory) :
    (MemoryStore.applyDARow now m row).id = row.id := by
  unfold MemoryStore.applyDARow
  by_cases hp : DecayEngine.shouldProtect m.tags
  · simp [hp]
  · simp only [hp, Bool.false_eq_true, if_false]
    rcases DecayEngine.computeReinforcement _ _ with ⟨na, sw, ni⟩
    cases sw <;> cases ni <;>
      by_cases hw : DecayEngine.shouldWriteDecay m.importance
        (DecayEngine.computeDecay m.importance (MemoryStore.daysIdle now m) m.memoryType) <;>
      simp [hw]

theorem maintainMemory_eq_applyDARow (now : ℝ) (m : Memory) :
    MemoryStore.maintainMemory now m = MemoryStore.applyDARow now m m := by
  unfold MemoryStore.maintainMemory MemoryStore.applyDecayAndReinforcement
    MemoryStore.applyDARow
  by_cases hp : DecayEngine.shouldProtect m.tags
  · simp [hp]
  · simp only [hp, Bool.false_eq_true, if_false]
    rcases DecayEngine.computeReinforcement _ _ with ⟨na, sw, ni⟩
    cases sw <;> cases ni <;>
      by_cases hw : DecayEngine.shouldWriteDecay m.importance
        (DecayEngine.computeDecay m.importance (MemoryStore.daysIdle now m) m.memoryType) <;>
      simp [hw]

theorem applyDA_fst (now : ℝ) (m : Memory) (s : Store) :
    (MemoryStore.applyDecayAndReinforcement now m s).1 =
      MemoryStore.maintainMemory now m := by
  unfold MemoryStore.maintainMemory MemoryStore.applyDecayAndReinforcement
  by_cases hp : DecayEngine.shouldProtect m.tags <;> simp [hp]

theorem applyDA_snd_map (now : ℝ) (m : Memory) (s : Store) :
    (MemoryStore.applyDecayAndReinforcement now m s).2 =
      MemoryStore.updateRow m.id (MemoryStore.applyDARow now m) s := by
  unfold MemoryStore.applyDecayAndReinforcement MemoryStore.applyDARow
  by_cases hp : DecayEngine.shouldProtect m.tags
  · simp only [hp, if_true]
    exact (updateRow_id_fun m.id s).symm
  · simp only [hp, Bool.false_eq_true, if_false]
    rcases DecayEngine.computeReinforcement _ _ with ⟨na, sw, ni⟩
    by_cases hw : DecayEngine.shouldWriteDecay m.importance
        (DecayEngine.computeDecay m.importance (MemoryStore.daysIdle now m) m.memoryType) <;>
      cases sw <;> cases ni <;>
        simp only [hw, if_true, if_false] <;>
        (unfold MemoryStore.updateRow
         simp only [List.map_map]
         apply List.map_congr_left
         intro a _
         by_cases h : a.id = m.id <;> simp [Function.comp, h])

theorem applyDARow_protected (now : ℝ) (m row : Memory)
    (hp : DecayEngine.shouldProtect m.tags = true) :
    MemoryStore.applyDARow now m row = row := by
  unfold MemoryStore.applyDARow
  simp [hp]

theorem applyDARow_lastAccessed (now : ℝ) (m row : Memory)
    (hp : DecayEngine.shouldProtect m.tags = false) :
    (MemoryStore.applyDARow now m row).lastAccessed = now := by
  unfold MemoryStore.applyDARow
  simp only [hp, Bool.false_eq_true, if_false]

theorem applyDARow_tags (now : ℝ) (m row : Memory) :
    (MemoryStore.applyDARow now m row).tags = row.tags := by
  unfold MemoryStore.applyDARow
  by_cases hp : DecayEngine.shouldProtect m.tags
  · simp [hp]
  · simp only [hp, Bool.false_eq_true, if_false]
    rcases DecayEngine.computeReinforcement _ _ with ⟨na, sw, ni⟩
    cases sw <;> cases ni <;>
      by_cases hw : DecayEngine.shouldWriteDecay m.importance
        (DecayEngine.computeDecay m.importance (MemoryStore.daysIdle now m) m.memoryType) <;>
      simp [hw]

theorem maintainMemory_protected (now : ℝ) (m : Memory)
    (hp : DecayEngine.shouldProtect m.tags = true) :
    MemoryStore.maintainMemory now m = m := by
  rw [maintainMemory_eq_applyDARow]
  exact applyDARow_protected now m m hp

theorem maintainMemory_tags (now : ℝ) (m : Memory) :
    (MemoryStore.maintainMemory now m).tags = m.tags := by
  rw [maintainMemory_eq_applyDARow]
  exact applyDARow_tags now m m

theorem maintainMemory_id (now : ℝ) (m : Memory) :
    (MemoryStore.maintainMemory now m).id = m.id := by
  rw [maintainMemory_eq_applyDARow]
  exact applyDARow_id now m m

theorem maintainMemory_lastAccessed (now : ℝ) (m : Memory)
    (hp : DecayEngine.shouldProtect m.tags = false) :
    (MemoryStore.maintainMemory now m).lastAccessed = now := by
  rw [maintainMemory_eq_applyDARow]
  exact applyDARow_lastAccessed now m m hp

/-! ## Search decomposition -/

theorem search_ok_elim {embed : String → List ℝ} {now : ℝ} {query : String}
    {limit : ℕ} {threshold : ℝ} {s : Store} {r : List SearchResult} {s' : Store}
    (h : MemoryStore.search embed now query limit threshold s = .ok (r, s')) :
    ∃ cands, MemoryStore.scanCandidates (embed query) threshold s = .ok cands ∧
      r = ((MemoryStore.touchAll now cands s).1.mergeSort
            fun a b => b.score ≤ a.score).take limit ∧
      s' = (MemoryStore.touchAll now cands s).2 := by
  simp only [MemoryStore.search] at h
  rcases hscan : MemoryStore.scanCandidates (embed query) threshold s with e | cands
  · rw [hscan] at h
    exact Except.noConfusion h
  · rw [hscan] at h
    have h2 : (Except.ok
        (((MemoryStore.touchAll now cands s).1.mergeSort
            fun a b => b.score ≤ a.score).take limit,
          (MemoryStore.touchAll now cands s).2) : Except StoreErr _) = .ok (r, s') := h
    simp only [Except.ok.injEq, Prod.mk.injEq] at h2
    exact ⟨cands, rfl, h2.1.symm, h2.2.symm⟩

theorem touchAll_fst_char (now : ℝ) :
    ∀ (cands : List (Memory × ℝ)) (st : Store),
    (MemoryStore.touchAll now cands st).1 =
      cands.map (fun c => ⟨MemoryStore.maintainMemory now c.1, c.2⟩)
  | [], _ => rfl
  | (m, sc) :: rest, st => by
    unfold MemoryStore.touchAll
    simp only [List.map_cons]
    rw [applyDA_fst, touchAll_fst_char now rest]

theorem touchAll_snd_char (now : ℝ) :
    ∀ (cands : List (Memory × ℝ)) (st : Store),
    (MemoryStore.touchAll now cands st).2 =
      cands.foldl (fun acc c =>
        MemoryStore.updateRow c.1.id (MemoryStore.applyDARow now c.1) acc) st
  | [], _ => rfl
  | (m, sc) :: rest, st => by
    unfold MemoryStore.touchAll
    simp only [List.foldl_cons]
    rw [touchAll_snd_char now rest, applyDA_snd_map]

theorem scanCandidates_ok_char (qe : List ℝ) (threshold : ℝ) :
    ∀ (s : Store) (cands : List (Memory × ℝ)),
    MemoryStore.scanCandidates qe threshold s = .ok cands →
    cands = (s.filter fun m => threshold ≤ cosineSimilarityVal qe m.embedding).map
      (fun m => (m, cosineSimilarityVal qe m.embedding))
  | [], cands, h => by
    have h2 : (Except.ok [] : Except StoreErr (List (Memory × ℝ))) = .ok cands := h
    simp only [Except.ok.injEq] at h2
    simp [← h2]
  | m :: rest, cands, h => by
    unfold MemoryStore.scanCandidates at h
    by_cases hlen : qe.length ≠ m.embedding.length
    · have hcos : cosineSimilarity qe m.embedding =
          .error (.dimensionMismatch qe.length m.embedding.length) := by
        unfold cosineSimilarity
        rw [if_pos hlen]
      rw [hcos] at h
      exact Except.noConfusion h
    · have hcos : cosineSimilarity qe m.embedding =
          .ok (cosineSimilarityVal qe m.embedding) := by
        unfold cosineSimilarity
        rw [if_neg hlen]
      rw [hcos] at h
      rcases hscan : MemoryStore.scanCandidates qe threshold rest with e | tail
      · rw [hscan] at h
        exact Except.noConfusion h
      · rw [hscan] at h
        have htail := scanCandidates_ok_char qe threshold rest tail hscan
        have h2 : (if threshold ≤ cosineSimilarityVal qe m.embedding then
            (pure ((m, cosineSimilarityVal qe m.embedding) :: tail) :
              Except StoreErr (List (Memory × ℝ)))
          else pure tail) = .ok cands := h
        by_cases hθ : threshold ≤ cosineSimilarityVal qe m.embedding
        · rw [if_pos hθ] at h2
          have h3 : (Except.ok ((m, cosineSimilarityVal qe m.embedding) :: tail) :
              Except StoreErr (List (Memory × ℝ))) = .ok cands := h2
          simp only [Except.ok.injEq] at h3
          rw [← h3, htail, List.filter_cons_of_pos (by simpa using hθ), List.map_cons]
        · rw [if_neg hθ] at h2
          have h3 : (Except.ok tail :
              Except StoreErr (List (Memory × ℝ))) = .ok cands := h2
          simp only [Except.ok.injEq] at h3
          rw [← h3, htail, List.filter_cons_of_neg (by simpa using hθ)]

/-! ## Ordering inside the maintenance pass (decay before reinforcement) -/

/-- C5: for a non-protected record, the maintenance pass computes the decayed
importance first (committing it exactly when the write-back threshold is
met), and then computes reinforcement against that possibly-decayed baseline:
the returned importance is the reinforcement outcome applied to the
post-decay value, not to the pre-decay one. -/
theorem claim_C5_decay_before_reinforcement (now : ℝ) (m : Memory) (s : Store)
    (hp : DecayEngine.shouldProtect m.tags = false) :
    ∃ base : ℝ,
      base = (if DecayEngine.shouldWriteDecay m.importance
          (DecayEngine.computeDecay m.importance (MemoryStore.daysIdle now m)
            m.memoryType)
        then DecayEngine.computeDecay m.importance (MemoryStore.daysIdle now m)
            m.memoryType
        else m.importance) ∧
      (MemoryStore.applyDecayAndReinforcement now m s).1.importance =
        (match (DecayEngine.computeReinforcement base
                  (MemoryStore.accumOf m)).shouldWrite,
               (DecayEngine.computeReinforcement base
                  (MemoryStore.accumOf m)).newImportance with
         | true, some v => v
         | _, _ => base) := by
  refine ⟨_, rfl, ?_⟩
  rw [applyDA_fst, maintainMemory_eq_applyDARow]
  unfold MemoryStore.applyDARow
  simp only [hp, Bool.false_eq_true, if_false]
  rcases DecayEngine.computeReinforcement _ _ with ⟨na, sw, ni⟩
  cases sw <;> cases ni <;>
    by_cases hw : DecayEngine.shouldWriteDecay m.importance
      (DecayEngine.computeDecay m.importance (MemoryStore.daysIdle now m) m.memoryType) <;>
    simp [hw]

/-- C5 witness: the record mIdle (importance 10, category "general", idle for
exactly 60 days at the sample clock reading, accumulator 0.4) is not
protected, so the pass decays it first and reinforces the decayed baseline. -/
theorem claim_C5_decay_before_reinforcement_witness :
    DecayEngine.shouldProtect mIdle.tags = false ∧
    ∃ base : ℝ,
      base = (if DecayEngine.shouldWriteDecay mIdle.importance
          (DecayEngine.computeDecay mIdle.importance
            (MemoryStore.daysIdle 5184000000 mIdle) mIdle.memoryType)
        then DecayEngine.computeDecay mIdle.importance
            (MemoryStore.daysIdle 5184000000 mIdle) mIdle.memoryType
        else mIdle.importance) ∧
      (MemoryStore.applyDecayAndReinforcement 5184000000 mIdle [mIdle]).1.importance =
        (match (DecayEngine.computeReinforcement base
                  (MemoryStore.accumOf mIdle)).shouldWrite,
               (DecayEngine.computeReinforcement base
                  (MemoryStore.accumOf mIdle)).newImportance with
         | true, some v => v
         | _, _ => base) :=
  ⟨rfl, claim_C5_decay_before_reinforcement 5184000000 mIdle [mIdle] rfl⟩

/-! ## Read-path touches and lastAccessed -/

/-- C4 (amended): every read-path touch of a non-protected record — a getById
hit, or a record returned as a search result — sets the record's
lastAccessed to the current clock reading (for getById both in the returned
record and in every matching stored row), whether or not decay or
reinforcement changed its importance. Records carrying a protected tag are
excluded: they skip the entire maintenance pass, including the lastAccessed
advance — see the counterexample. -/
theorem claim_C4_read_touch_advances_lastAccessed :
    (∀ (now : ℝ) (id : String) (s : Store) (m' : Memory) (s' : Store),
      MemoryStore.getById now id s = (some m', s') →
      DecayEngine.shouldProtect m'.tags = false →
      m'.lastAccessed = now ∧ ∀ row ∈ s', row.id = id → row.lastAccessed = now) ∧
    (∀ (embed : String → List ℝ) (now : ℝ) (query : String) (limit : ℕ)
      (threshold : ℝ) (s : Store) (r : List SearchResult) (s' : Store),
      MemoryStore.search embed now query limit threshold s = .ok (r, s') →
      ∀ x ∈ r, DecayEngine.shouldProtect x.memory.tags = false →
        x.memory.lastAccessed = now) := by
  constructor
  · intro now id s m' s' h hp
    unfold MemoryStore.getById at h
    rcases hfind : s.find? (fun m => m.id = id) with _ | m
    · rw [hfind] at h
      simp at h
    · rw [hfind] at h
      simp only [Prod.mk.injEq, Option.some.injEq] at h
      obtain ⟨hm', hs'⟩ := h
      have hmid : m.id = id := by simpa using List.find?_some hfind
      have htags : m.tags = m'.tags := by
        rw [← hm', applyDA_fst, maintainMemory_tags]
      have hpm : DecayEngine.shouldProtect m.tags = false := by
        rw [htags]; exact hp
      constructor
      · rw [← hm', applyDA_fst, maintainMemory_lastAccessed now m hpm]
      · intro row hrow hrowid
        rw [← hs', applyDA_snd_map] at hrow
        unfold MemoryStore.updateRow at hrow
        obtain ⟨a, _, haeq⟩ := List.mem_map.mp hrow
        by_cases hid : a.id = m.id
        · rw [if_pos hid] at haeq
          rw [← haeq]
          exact applyDARow_lastAccessed now m a hpm
        · rw [if_neg hid] at haeq
          rw [← haeq] at hrowid
          exact absurd (hrowid.trans hmid.symm) hid
  · intro embed now query limit threshold s r s' h x hx hpx
    obtain ⟨cands, hscan, hr, hs'⟩ := search_ok_elim h
    have hx2 : x ∈ (MemoryStore.touchAll now cands s).1 := by
      have hx3 : x ∈ ((MemoryStore.touchAll now cands s).1.mergeSort
          fun a b => b.score ≤ a.score) := List.mem_of_mem_take (hr ▸ hx)
      exact List.mem_mergeSort.mp hx3
    rw [touchAll_fst_char] at hx2
    obtain ⟨c, _, hceq⟩ := List.mem_map.mp hx2
    have hmem : x.memory = MemoryStore.maintainMemory now c.1 := by rw [← hceq]
    have hpc : DecayEngine.shouldProtect c.1.tags = false := by
      rw [← maintainMemory_tags now c.1, ← hmem]
      exact hpx
    rw [hmem, maintainMemory_lastAccessed now c.1 hpc]

theorem applyDARow_hello (row : Memory) :
    MemoryStore.applyDARow 0 mHello row =
      { row with metadata := ⟨some (1/10)⟩, lastAccessed := 0 } := by
  have hd : MemoryStore.daysIdle 0 mHello = 0 := by
    unfold MemoryStore.daysIdle mHello
    norm_num
  have hdec : DecayEngine.computeDecay (5:ℝ) 0 "general" = 5 := by
    unfold DecayEngine.computeDecay
    norm_num
  have hw : ¬ DecayEngine.shouldWriteDecay (5:ℝ) 5 := by
    unfold DecayEngine.shouldWriteDecay DecayEngine.writebackStep
    norm_num
  have hacc : MemoryStore.accumOf mHello = 0 := by
    unfold MemoryStore.accumOf mHello mdNone
    simp
  have hrein : DecayEngine.computeReinforcement (5:ℝ) 0 =
      ⟨1/10, false, none⟩ := by
    unfold DecayEngine.computeReinforcement DecayEngine.reinforcementStep
      DecayEngine.reinforcementWritebackStep
    norm_num
  unfold MemoryStore.applyDARow
  rw [show DecayEngine.shouldProtect mHello.tags = false from rfl]
  simp only [Bool.false_eq_true, if_false, hd]
  rw [show mHello.importance = (5:ℝ) from rfl,
    show mHello.memoryType = "general" from rfl, hdec, hacc]
  simp only [hw, if_false, hrein]

theorem getById_hello_eval :
    MemoryStore.getById 0 "id0" [mHello] = (some mHelloTouched, [mHelloTouched]) := by
  have h1 : MemoryStore.getById 0 "id0" [mHello] =
      (some (MemoryStore.applyDecayAndReinforcement 0 mHello [mHello]).1,
       (MemoryStore.applyDecayAndReinforcement 0 mHello [mHello]).2) := rfl
  rw [h1, applyDA_fst, maintainMemory_eq_applyDARow, applyDA_snd_map]
  unfold MemoryStore.updateRow
  simp only [List.map_cons, List.map_nil, applyDARow_hello]
  rfl

/-- C4 witness: a getById hit at clock reading 0 on the unprotected record
mHello returns it with lastAccessed 0 and stores lastAccessed 0. -/
theorem claim_C4_read_touch_advances_lastAccessed_witness :
    mHelloTouched.lastAccessed = 0 ∧
      ∀ row ∈ [mHelloTouched], row.id = "id0" → row.lastAccessed = 0 :=
  claim_C4_read_touch_advances_lastAccessed.1 0 "id0" [mHello] mHelloTouched
    [mHelloTouched] getById_hello_eval rfl

/-- C4 counterexample: the record mProt carries the protected tag "core"; a
getById hit at clock reading 86400000 (one day later) returns it unchanged —
its lastAccessed stays 0 instead of advancing to the current time, and the
stored row is untouched. So read-path touches do not advance lastAccessedAt
for protected records. -/
theorem claim_C4_counterexample :
    MemoryStore.getById 86400000 "p1" [mProt] = (some mProt, [mProt]) ∧
    mProt.lastAccessed ≠ 86400000 := by
  constructor
  · have h1 : MemoryStore.getById 86400000 "p1" [mProt] =
        (some (MemoryStore.applyDecayAndReinforcement 86400000 mProt [mProt]).1,
         (MemoryStore.applyDecayAndReinforcement 86400000 mProt [mProt]).2) := rfl
    have h2 : ∀ row, MemoryStore.applyDARow 86400000 mProt row = row :=
      fun row => applyDARow_protected 86400000 mProt row rfl
    rw [h1, applyDA_fst, maintainMemory_protected 86400000 mProt rfl, applyDA_snd_map]
    unfold MemoryStore.updateRow
    simp only [List.map_cons, List.map_nil, h2, ite_self]
  · show (0:ℝ) ≠ 86400000
    norm_num

/-! ## Search ranking: order, truncation, threshold, stability -/

theorem searchLE_trans : ∀ a b c : SearchResult,
    decide (b.score ≤ a.score) = true → decide (c.score ≤ b.score) = true →
    decide (c.score ≤ a.score) = true := by
  intro a b c hab hbc
  simp only [decide_eq_true_eq] at hab hbc ⊢
  exact le_trans hbc hab

theorem searchLE_total : ∀ a b : SearchResult,
    (decide (b.score ≤ a.score) || decide (a.score ≤ b.score)) = true := by
  intro a b
  simp only [Bool.or_eq_true, decide_eq_true_eq]
  exact le_total b.score a.score

/-- Stability of the descending sort per tie class: filtering the sorted list
to one score value gives exactly the filter of the input, in input order. -/
theorem mergeSort_filter_score (scored : List SearchResult) (c : ℝ) :
    (scored.mergeSort fun a b => b.score ≤ a.score).filter
        (fun z => z.score = c) =
      scored.filter (fun z => z.score = c) := by
  have hpair : (scored.filter (fun z => z.score = c)).Pairwise
      (fun a b : SearchResult => decide (b.score ≤ a.score) = true) := by
    apply List.pairwise_of_forall_mem_list
    intro a ha b hb
    have ha' : a.score = c := by simpa using (List.of_mem_filter ha)
    have hb' : b.score = c := by simpa using (List.of_mem_filter hb)
    simp [ha', hb']
  have h1 : scored.filter (fun z => z.score = c) <+
      scored.mergeSort (fun a b => b.score ≤ a.score) :=
    List.sublist_mergeSort searchLE_trans searchLE_total hpair
      (List.filter_sublist scored)
  have h2 : scored.filter (fun z => z.score = c) <+
      (scored.mergeSort fun a b => b.score ≤ a.score).filter
        (fun z => z.score = c) := by
    have h1f := h1.filter (fun z => decide (z.score = c))
    rw [List.filter_filter] at h1f
    simpa only [Bool.and_self] using h1f
  have h3 : ((scored.mergeSort fun a b => b.score ≤ a.score).filter
      (fun z => z.score = c)).length =
        (scored.filter (fun z => z.score = c)).length :=
    ((List.mergeSort_perm scored _).filter _).length_eq
  exact (h2.eq_of_length h3.symm).symm

/-- C6: a successful search returns results sorted non-increasingly by score,
truncated to at most the limit, all scoring at or above the threshold, and
ties are kept in insertion order: any two equal-scoring results appear in the
same order as in the maintained candidate list, which lists the hits in
stored (insertion) order. -/
theorem claim_C6_search_ranking (embed : String → List ℝ) (now : ℝ)
    (query : String) (limit : ℕ) (threshold : ℝ) (s : Store)
    (r : List SearchResult) (s' : Store)
    (h : MemoryStore.search embed now query limit threshold s = .ok (r, s')) :
    ∃ cands, MemoryStore.scanCandidates (embed query) threshold s = .ok cands ∧
      r.Pairwise (fun a b => b.score ≤ a.score) ∧
      r.length ≤ limit ∧
      (∀ x ∈ r, threshold ≤ x.score) ∧
      (∀ x y : SearchResult, [x, y] <+ r → x.score = y.score →
        [x, y] <+ (MemoryStore.touchAll now cands s).1) := by
  obtain ⟨cands, hscan, hr, _⟩ := search_ok_elim h
  refine ⟨cands, hscan, ?_, ?_, ?_, ?_⟩
  · have hsorted := @List.sorted_mergeSort SearchResult
      (fun a b : SearchResult => decide (b.score ≤ a.score))
      searchLE_trans searchLE_total (MemoryStore.touchAll now cands s).1
    have htake := hsorted.sublist (List.take_sublist limit _)
    rw [← hr] at htake
    exact htake.imp (by simp)
  · rw [hr]
    exact List.length_take_le limit _
  · intro x hx
    have hx2 : x ∈ (MemoryStore.touchAll now cands s).1 :=
      List.mem_mergeSort.mp (List.mem_of_mem_take (hr ▸ hx))
    rw [touchAll_fst_char] at hx2
    obtain ⟨c, hc, hceq⟩ := List.mem_map.mp hx2
    have hsc : x.score = c.2 := by rw [← hceq]
    rw [scanCandidates_ok_char (embed query) threshold s cands hscan] at hc
    obtain ⟨m, hm, hmeq⟩ := List.mem_map.mp hc
    have hpred : threshold ≤ cosineSimilarityVal (embed query) m.embedding := by
      simpa using List.of_mem_filter hm
    rw [hsc, ← hmeq]
    exact hpred
  · intro x y hxy hscore
    have hsorted : [x, y] <+ (MemoryStore.touchAll now cands s).1.mergeSort
        (fun a b => b.score ≤ a.score) :=
      (hr ▸ hxy).trans (List.take_sublist limit _)
    have hfil : [x, y].filter (fun z => z.score = x.score) = [x, y] := by
      simp [hscore.symm]
    have h2 : [x, y] <+ ((MemoryStore.touchAll now cands s).1.mergeSort
        (fun a b => b.score ≤ a.score)).filter (fun z => z.score = x.score) := by
      have := hsorted.filter (fun z => decide (z.score = x.score))
      rwa [hfil] at this
    rw [mergeSort_filter_score] at h2
    exact h2.trans (List.filter_sublist _)

theorem cosineSimilarityVal_one : cosineSimilarityVal [(1:ℝ)] [(1:ℝ)] = 1 := by
  unfold cosineSimilarityVal
  rw [show [(1:ℝ)].length = 1 from rfl, Finset.sum_range_one]
  norm_num [Real.sqrt_one]

theorem scan_hello_eval :
    MemoryStore.scanCandidates [(1:ℝ)] (3/10) [mHello] = .ok [(mHello, 1)] := by
  have hcos : cosineSimilarity [(1:ℝ)] mHello.embedding = .ok 1 := by
    unfold cosineSimilarity
    rw [if_neg (by simp [mHello])]
    rw [show cosineSimilarityVal [(1:ℝ)] mHello.embedding =
      cosineSimilarityVal [(1:ℝ)] [(1:ℝ)] from rfl, cosineSimilarityVal_one]
  unfold MemoryStore.scanCandidates
  rw [hcos]
  have h2 : (if (3/10:ℝ) ≤ 1 then
      (pure ((mHello, (1:ℝ)) :: []) : Except StoreErr (List (Memory × ℝ)))
    else pure []) = .ok [(mHello, 1)] := by
    rw [if_pos (by norm_num)]
    rfl
  exact h2

theorem touchAll_hello_eval :
    MemoryStore.touchAll 0 [(mHello, (1:ℝ))] [mHello] =
      ([⟨mHelloTouched, 1⟩], [mHelloTouched]) := by
  simp only [MemoryStore.touchAll]
  rw [applyDA_fst, maintainMemory_eq_applyDARow, applyDA_snd_map]
  unfold MemoryStore.updateRow
  simp only [List.map_cons, List.map_nil, applyDARow_hello]
  rfl

theorem search_hello_eval :
    MemoryStore.search embed0 0 "q" 5 (3/10) [mHello] =
      .ok ([⟨mHelloTouched, 1⟩], [mHelloTouched]) := by
  have hred : MemoryStore.search embed0 0 "q" 5 (3/10) [mHello] =
      .ok (((MemoryStore.touchAll 0 [(mHello, (1:ℝ))] [mHello]).1.mergeSort
          fun a b => b.score ≤ a.score).take 5,
        (MemoryStore.touchAll 0 [(mHello, (1:ℝ))] [mHello]).2) := by
    simp only [MemoryStore.search]
    rw [show MemoryStore.scanCandidates (embed0 "q") (3/10) [mHello] =
      .ok [(mHello, (1:ℝ))] from scan_hello_eval]
    rfl
  rw [hred, touchAll_hello_eval]
  simp

/-- C6 witness: a concrete successful search over a one-record store. -/
theorem claim_C6_search_ranking_witness :
    ∃ cands, MemoryStore.scanCandidates (embed0 "q") (3/10) [mHello] = .ok cands ∧
      List.Pairwise (fun a b : SearchResult => b.score ≤ a.score)
        [(⟨mHelloTouched, 1⟩ : SearchResult)] ∧
      [(⟨mHelloTouched, 1⟩ : SearchResult)].length ≤ 5 ∧
      (∀ x ∈ [(⟨mHelloTouched, 1⟩ : SearchResult)], (3/10:ℝ) ≤ x.score) ∧
      (∀ x y : SearchResult, [x, y] <+ [(⟨mHelloTouched, 1⟩ : SearchResult)] →
        x.score = y.score →
        [x, y] <+ (MemoryStore.touchAll 0 cands [mHello]).1) :=
  claim_C6_search_ranking embed0 0 "q" 5 (3/10) [mHello]
    [⟨mHelloTouched, 1⟩] [mHelloTouched] search_hello_eval

/-! ## Frame effect of search on the stored table -/

theorem fold_updateRow_char (now : ℝ) :
    ∀ (cs : List (Memory × ℝ)) (s : Store),
    (cs.map (fun c => c.1.id)).Nodup →
    cs.foldl (fun acc c =>
        MemoryStore.updateRow c.1.id (MemoryStore.applyDARow now c.1) acc) s =
      s.map (fun row => (cs.find? (fun c => c.1.id = row.id)).elim row
        (fun c => MemoryStore.applyDARow now c.1 row))
  | [], s, _ => by
    simp [List.find?_nil, Option.elim]
  | c :: cs', s, hnd => by
    have hnd2 : (c.1.id :: cs'.map (fun d => d.1.id)).Nodup := by
      simpa using hnd
    obtain ⟨hnotmem, htail⟩ := List.nodup_cons.mp hnd2
    rw [List.foldl_cons, fold_updateRow_char now cs' _ htail]
    unfold MemoryStore.updateRow
    rw [List.map_map]
    apply List.map_congr_left
    intro row _
    simp only [Function.comp]
    by_cases hid : row.id = c.1.id
    · simp only [if_pos hid]
      have hfa : cs'.find?
          (fun d => d.1.id = (MemoryStore.applyDARow now c.1 row).id) = none := by
        rw [List.find?_eq_none]
        intro d hd
        simp only [applyDARow_id, decide_eq_true_eq]
        intro hdid
        exact hnotmem (List.mem_map.mpr ⟨d, hd, hdid.trans hid⟩)
      rw [hfa, List.find?_cons_of_pos _ (by simp [hid])]
      rfl
    · simp only [if_neg hid]
      rw [List.find?_cons_of_neg _ (by simp; exact fun hh => hid hh.symm)]

/-- C10: provided stored ids are distinct (the table's primary key), a
successful search rewrites the table exactly as follows: every record whose
similarity score reaches the threshold — including records later cut off by
the limit — is replaced by its maintenance-pass result (decay write-back,
reinforcement accumulation, lastAccessed advance), and every record scoring
below the threshold is left completely unchanged. -/
theorem claim_C10_search_frame (embed : String → List ℝ) (now : ℝ)
    (query : String) (limit : ℕ) (threshold : ℝ) (s : Store)
    (r : List SearchResult) (s' : Store)
    (hnodup : (s.map (fun m => m.id)).Nodup)
    (h : MemoryStore.search embed now query limit threshold s = .ok (r, s')) :
    s' = s.map (fun m =>
      if threshold ≤ cosineSimilarityVal (embed query) m.embedding
      then MemoryStore.maintainMemory now m else m) := by
  obtain ⟨cands, hscan, _, hs'⟩ := search_ok_elim h
  have hchar := scanCandidates_ok_char (embed query) threshold s cands hscan
  have huniq : ∀ a ∈ s, ∀ b ∈ s, a.id = b.id → a = b :=
    List.inj_on_of_nodup_map hnodup
  have hcandsid : (cands.map (fun c => c.1.id)).Nodup := by
    rw [hchar, List.map_map]
    have : ((fun c : Memory × ℝ => c.1.id) ∘
        (fun m => (m, cosineSimilarityVal (embed query) m.embedding))) =
        fun m : Memory => m.id := rfl
    rw [this]
    exact hnodup.sublist ((List.filter_sublist s).map _)
  rw [hs', touchAll_snd_char, fold_updateRow_char now cands s hcandsid]
  apply List.map_congr_left
  intro row hrow
  by_cases hhit : threshold ≤ cosineSimilarityVal (embed query) row.embedding
  · rw [if_pos hhit]
    have hmemc : (row, cosineSimilarityVal (embed query) row.embedding) ∈ cands := by
      rw [hchar]
      exact List.mem_map.mpr ⟨row,
        List.mem_filter.mpr ⟨hrow, by simpa using hhit⟩, rfl⟩
    have hsome : (cands.find? (fun c => c.1.id = row.id)).isSome := by
      rw [List.find?_isSome]
      exact ⟨_, hmemc, by simp⟩
    obtain ⟨c, hfind⟩ := Option.isSome_iff_exists.mp hsome
    have hcid : c.1.id = row.id := by simpa using List.find?_some hfind
    have hcmem := List.mem_of_find?_eq_some hfind
    have hc1mem : c.1 ∈ s := by
      rw [hchar] at hcmem
      obtain ⟨m, hm, hmeq⟩ := List.mem_map.mp hcmem
      rw [← hmeq]
      exact List.mem_of_mem_filter hm
    have hc1 : c.1 = row := huniq c.1 hc1mem row hrow hcid
    rw [hfind]
    simp only [Option.elim]
    rw [hc1, ← maintainMemory_eq_applyDARow]
  · rw [if_neg hhit]
    have hnone : cands.find? (fun c => c.1.id = row.id) = none := by
      rw [List.find?_eq_none]
      intro c hc
      simp only [decide_eq_true_eq]
      intro hcid
      have hc1mem : c.1 ∈ s ∧
          threshold ≤ cosineSimilarityVal (embed query) c.1.embedding := by
        rw [hchar] at hc
        obtain ⟨m, hm, hmeq⟩ := List.mem_map.mp hc
        obtain ⟨hm1, hm2⟩ := List.mem_filter.mp hm
        rw [← hmeq]
        exact ⟨hm1, by simpa using hm2⟩
      have : c.1 = row := huniq c.1 hc1mem.1 row hrow hcid
      rw [this] at hc1mem
      exact hhit hc1mem.2
    rw [hnone]
    rfl

/-! ## The importance-bounds invariant over all reachable states -/

theorem one_le_computeDecay {imp : ℝ} (h1 : 1 ≤ imp) (d : ℝ) (t : String) :
    1 ≤ DecayEngine.computeDecay imp d t := by
  unfold DecayEngine.computeDecay
  dsimp only
  split_ifs
  · exact h1
  · exact le_trans (one_le_floors t) (le_max_left _ _)

theorem computeReinforcement_some_bounds {imp a na : ℝ} {sw : Bool} {v : ℝ}
    (h1 : 1 ≤ imp)
    (h : DecayEngine.computeReinforcement imp a = ⟨na, sw, some v⟩) :
    1 ≤ v ∧ v ≤ 10 := by
  unfold DecayEngine.computeReinforcement DecayEngine.reinforcementStep
    DecayEngine.reinforcementWritebackStep DecayEngine.maxImportance at h
  by_cases hc : a + 1/10 ≥ 1/2
  · rw [if_pos hc] at h
    simp only [DecayEngine.ReinforcementResult.mk.injEq, Option.some.injEq] at h
    obtain ⟨-, -, hv⟩ := h
    rw [← hv]
    constructor
    · apply le_min (by norm_num)
      have := lt_roundToHalf (imp + (a + 1/10))
      linarith
    · exact min_le_left _ _
  · rw [if_neg hc] at h
    simp at h

theorem applyDARow_importance_bounds (now : ℝ) (m row : Memory)
    (hm1 : 1 ≤ m.importance) (hm10 : m.importance ≤ 10)
    (hr1 : 1 ≤ row.importance) (hr10 : row.importance ≤ 10) :
    1 ≤ (MemoryStore.applyDARow now m row).importance ∧
      (MemoryStore.applyDARow now m row).importance ≤ 10 := by
  unfold MemoryStore.applyDARow
  dsimp only
  by_cases hp : DecayEngine.shouldProtect m.tags
  · simp only [hp, if_true]
    exact ⟨hr1, hr10⟩
  · simp only [hp, Bool.false_eq_true, if_false]
    by_cases hw : DecayEngine.shouldWriteDecay m.importance
        (DecayEngine.computeDecay m.importance (MemoryStore.daysIdle now m)
          m.memoryType)
    · simp only [hw, if_true]
      have hb1 : 1 ≤ DecayEngine.computeDecay m.importance
          (MemoryStore.daysIdle now m) m.memoryType :=
        one_le_computeDecay hm1 _ _
      have hb10 : DecayEngine.computeDecay m.importance
          (MemoryStore.daysIdle now m) m.memoryType ≤ 10 := by
        unfold DecayEngine.shouldWriteDecay DecayEngine.writebackStep at hw
        linarith
      rcases hre : DecayEngine.computeReinforcement
          (DecayEngine.computeDecay m.importance (MemoryStore.daysIdle now m)
            m.memoryType) (MemoryStore.accumOf m) with ⟨na, sw, ni⟩
      cases sw <;> cases ni <;> dsimp only
      · exact ⟨hb1, hb10⟩
      · exact ⟨hb1, hb10⟩
      · exact ⟨hb1, hb10⟩
      · exact computeReinforcement_some_bounds hb1 hre
    · simp only [hw, if_false]
      rcases hre : DecayEngine.computeReinforcement m.importance
          (MemoryStore.accumOf m) with ⟨na, sw, ni⟩
      cases sw <;> cases ni <;> dsimp only
      · exact ⟨hr1, hr10⟩
      · exact ⟨hr1, hr10⟩
      · exact ⟨hr1, hr10⟩
      · exact computeReinforcement_some_bounds hm1 hre

theorem applyDA_fst_importance_bounds (now : ℝ) (m : Memory) (s : Store)
    (hm1 : 1 ≤ m.importance) (hm10 : m.importance ≤ 10) :
    1 ≤ (MemoryStore.applyDecayAndReinforcement now m s).1.importance ∧
      (MemoryStore.applyDecayAndReinforcement now m s).1.importance ≤ 10 := by
  rw [applyDA_fst, maintainMemory_eq_applyDARow]
  exact applyDARow_importance_bounds now m m hm1 hm10 hm1 hm10

theorem applyDA_preserves_inv (now : ℝ) (m : Memory) (s : Store)
    (hm1 : 1 ≤ m.importance) (hm10 : m.importance ≤ 10) (hs : Inv s) :
    Inv (MemoryStore.applyDecayAndReinforcement now m s).2 := by
  rw [applyDA_snd_map]
  intro row hrow
  unfold MemoryStore.updateRow at hrow
  obtain ⟨a, ha, haeq⟩ := List.mem_map.mp hrow
  obtain ⟨ha1, ha10⟩ := hs a ha
  by_cases hid : a.id = m.id
  · rw [if_pos hid] at haeq
    rw [← haeq]
    exact applyDARow_importance_bounds now m a hm1 hm10 ha1 ha10
  · rw [if_neg hid] at haeq
    rw [← haeq]
    exact ⟨ha1, ha10⟩

theorem touchAll_preserves_inv (now : ℝ) :
    ∀ (cands : List (Memory × ℝ)) (st : Store),
    (∀ c ∈ cands, 1 ≤ c.1.importance ∧ c.1.importance ≤ 10) → Inv st →
    Inv (MemoryStore.touchAll now cands st).2
  | [], st, _, hst => hst
  | (m, sc) :: rest, st, hc, hst => by
    simp only [MemoryStore.touchAll]
    obtain ⟨hm1, hm10⟩ := hc (m, sc) (List.mem_cons_self _ _)
    exact touchAll_preserves_inv now rest _
      (fun c hcmem => hc c (List.mem_cons_of_mem _ hcmem))
      (applyDA_preserves_inv now m st hm1 hm10 hst)

theorem getById_preserves_inv (now : ℝ) (id : String) (s : Store)
    (hs : Inv s) : Inv (MemoryStore.getById now id s).2 := by
  unfold MemoryStore.getById
  rcases hfind : s.find? (fun m => m.id = id) with _ | m
  · rw [hfind]
    exact hs
  · rw [hfind]
    dsimp only
    obtain ⟨hm1, hm10⟩ := hs m (List.mem_of_find?_eq_some hfind)
    exact applyDA_preserves_inv now m s hm1 hm10 hs

theorem getById_fst_bounds {now : ℝ} {id : String} {s : Store} {ex : Memory}
    {s1 : Store} (hs : Inv s)
    (h : MemoryStore.getById now id s = (some ex, s1)) :
    1 ≤ ex.importance ∧ ex.importance ≤ 10 := by
  unfold MemoryStore.getById at h
  rcases hfind : s.find? (fun m => m.id = id) with _ | m
  · rw [hfind] at h
    simp at h
  · rw [hfind] at h
    simp only [Prod.mk.injEq, Option.some.injEq] at h
    obtain ⟨hm1, hm10⟩ := hs m (List.mem_of_find?_eq_some hfind)
    rw [← h.1]
    exact applyDA_fst_importance_bounds now m s hm1 hm10

theorem save_preserves_inv {hash : String → String} {embed : String → List ℝ}
    {newId : String} {now : ℝ} {content : String} {md : Metadata}
    {tags : List String} {imp : ℝ} {ty : String} {s : Store} {m : Memory}
    {s' : Store} (hs : Inv s)
    (h : MemoryStore.save hash embed newId now content md tags imp ty s =
      .ok (m, s')) : Inv s' := by
  simp only [MemoryStore.save] at h
  rcases hfind : s.find? (fun mm => mm.contentHash = hash content) with _ | ex
  · rw [hfind] at h
    simp only [Except.ok.injEq, Prod.mk.injEq] at h
    obtain ⟨hm, hs'⟩ := h
    rw [← hs']
    intro a ha
    rcases List.mem_append.mp ha with ha1 | ha2
    · exact hs a ha1
    · have : a = _ := List.mem_singleton.mp ha2
      rw [this]
      constructor
      · exact le_max_left 1 _
      · exact max_le (by norm_num) (min_le_left _ _)
  · rw [hfind] at h
    exact Except.noConfusion h

theorem search_preserves_inv {embed : String → List ℝ} {now : ℝ}
    {query : String} {limit : ℕ} {threshold : ℝ} {s : Store}
    {r : List SearchResult} {s' : Store} (hs : Inv s)
    (h : MemoryStore.search embed now query limit threshold s = .ok (r, s')) :
    Inv s' := by
  obtain ⟨cands, hscan, -, hs'⟩ := search_ok_elim h
  have hchar := scanCandidates_ok_char (embed query) threshold s cands hscan
  rw [hs']
  apply touchAll_preserves_inv now cands s _ hs
  intro c hc
  rw [hchar] at hc
  obtain ⟨m, hm, hmeq⟩ := List.mem_map.mp hc
  rw [← hmeq]
  exact hs m (List.mem_of_mem_filter hm)

theorem update_preserves_inv {hash : String → String} {embed : String → List ℝ}
    {nowGet nowUpd : ℝ} {id : String} {content? : Option String}
    {metadata? : Option Metadata} {tags? : Option (List String)}
    {importance? : Option ℝ} {memoryType? : Option String} {s : Store}
    {om : Option Memory} {s' : Store} (hs : Inv s)
    (h : MemoryStore.update hash embed nowGet nowUpd id content? metadata?
      tags? importance? memoryType? s = .ok (om, s')) : Inv s' := by
  unfold MemoryStore.update at h
  rcases hget : MemoryStore.getById nowGet id s with ⟨o, s1⟩
  have hinv1 : Inv s1 := by
    have := getById_preserves_inv nowGet id s hs
    rw [hget] at this
    exact this
  rw [hget] at h
  rcases o with _ | ex
  · dsimp only at h
    have h2 : (Except.ok (none, s1) : Except StoreErr (Option Memory × Store)) =
        .ok (om, s') := h
    simp only [Except.ok.injEq, Prod.mk.injEq] at h2
    rw [← h2.2]
    exact hinv1
  · have hex : 1 ≤ ex.importance ∧ ex.importance ≤ 10 :=
      getById_fst_bounds hs hget
    have himp : ∀ i', i' = (match importance? with
        | some i => max 1 (min 10 i)
        | none => ex.importance) → 1 ≤ i' ∧ i' ≤ 10 := by
      intro i' hi'
      rcases importance? with _ | i
      · rw [hi']
        exact hex
      · rw [hi']
        exact ⟨le_max_left 1 _, max_le (by norm_num) (min_le_left _ _)⟩
    dsimp only at h
    rcases content? with _ | c
    · dsimp only at h
      have h2 := h
      simp only [Except.ok.injEq, Prod.mk.injEq] at h2
      rw [← h2.2]
      intro a ha
      unfold MemoryStore.updateRow at ha
      obtain ⟨b, hb, hbeq⟩ := List.mem_map.mp ha
      by_cases hbid : b.id = id
      · rw [if_pos hbid] at hbeq
        rw [← hbeq]
        exact himp _ rfl
      · rw [if_neg hbid] at hbeq
        rw [← hbeq]
        exact hinv1 b hb
    · dsimp only at h
      by_cases hcc : ¬ c = ex.content
      · rw [if_pos hcc] at h
        rcases hfind2 : s1.find?
            (fun m => m.contentHash = hash c ∧ m.id ≠ id) with _ | other
        · rw [hfind2] at h
          dsimp only at h
          have h2 := h
          simp only [Except.ok.injEq, Prod.mk.injEq] at h2
          rw [← h2.2]
          intro a ha
          unfold MemoryStore.updateRow at ha
          obtain ⟨b, hb, hbeq⟩ := List.mem_map.mp ha
          by_cases hbid : b.id = id
          · rw [if_pos hbid] at hbeq
            rw [← hbeq]
            exact himp _ rfl
          · rw [if_neg hbid] at hbeq
            rw [← hbeq]
            exact hinv1 b hb
        · rw [hfind2] at h
          exact Except.noConfusion h
      · rw [if_neg hcc] at h
        have h2 := h
        simp only [Except.ok.injEq, Prod.mk.injEq] at h2
        rw [← h2.2]
        intro a ha
        unfold MemoryStore.updateRow at ha
        obtain ⟨b, hb, hbeq⟩ := List.mem_map.mp ha
        by_cases hbid : b.id = id
        · rw [if_pos hbid] at hbeq
          rw [← hbeq]
          exact himp _ rfl
        · rw [if_neg hbid] at hbeq
          rw [← hbeq]
          exact hinv1 b hb

/-- C3 (amended): in every store state reachable through the public
operations (save, get, search, update, delete, deleteAll), every stored
record's importance lies between 1 and 10. The category-floor part of the
claim is false: save and update clamp only to the interval from 1 to 10 and
never consult the category floor, so a record can sit below its category's
floor — see the counterexample. -/
theorem claim_C3_importance_bounds {s : Store} (hreach : Reachable s) :
    ∀ m ∈ s, 1 ≤ m.importance ∧ m.importance ≤ 10 := by
  induction hreach with
  | nil => intro m hm; exact absurd hm (List.not_mem_nil m)
  | save _ hok ih => exact save_preserves_inv ih hok
  | get now id _ ih => exact getById_preserves_inv now id _ ih
  | search _ hok ih => exact search_preserves_inv ih hok
  | update _ hok ih => exact update_preserves_inv ih hok
  | delete id _ ih =>
      intro m hm
      exact ih m (List.mem_of_mem_filter hm)
  | deleteAll _ _ => intro m hm; exact absurd hm (List.not_mem_nil m)

/-- C3 witness: the store holding the record saved by save_hello_eval is
reachable and its record's importance lies in the interval. -/
theorem claim_C3_importance_bounds_witness :
    1 ≤ mHello.importance ∧ mHello.importance ≤ 10 :=
  claim_C3_importance_bounds
    (Reachable.save Reachable.nil save_hello_eval) mHello (by simp)

theorem save_fact_eval :
    MemoryStore.save hash0 embed0 "f1" 0 "fc" mdNone [] 1 "fact" [] =
      .ok (mFact, [mFact]) := by
  unfold MemoryStore.save hash0 embed0 mdNone mFact
  simp only [List.find?_nil]
  rw [show max 1 (min 10 (1:ℝ)) = 1 by
    rw [min_eq_right (by norm_num : (1:ℝ) ≤ 10), max_eq_right (by norm_num : (1:ℝ) ≤ 1)]]
  rfl

/-- C3 counterexample: saving content with importance 1 and category "fact"
(floor 3) succeeds and stores importance 1, which is below the category's
configured floor; the resulting store state is reachable. So the invariant
"importance never falls below the category's floor" does not hold. -/
theorem claim_C3_counterexample :
    Reachable [mFact] ∧ mFact ∈ [mFact] ∧
      mFact.importance < DecayEngine.floors mFact.memoryType := by
  refine ⟨Reachable.save Reachable.nil save_fact_eval, by simp, ?_⟩
  have hf : DecayEngine.floors "fact" = 3 := by
    unfold DecayEngine.floors
    simp
  show (1:ℝ) < DecayEngine.floors "fact"
  rw [hf]
  norm_num

/-! ## The reinforcement accumulator -/

theorem computeReinforcement_newAccum_bounds {imp a na : ℝ} {sw : Bool}
    {ni : Option ℝ} (ha : 0 ≤ a)
    (h : DecayEngine.computeReinforcement imp a = ⟨na, sw, ni⟩) :
    0 ≤ na ∧ na < 1/2 := by
  unfold DecayEngine.computeReinforcement DecayEngine.reinforcementStep
    DecayEngine.reinforcementWritebackStep DecayEngine.maxImportance at h
  by_cases hc : a + 1/10 ≥ 1/2
  · rw [if_pos hc] at h
    simp only [DecayEngine.ReinforcementResult.mk.injEq] at h
    rw [← h.1]
    norm_num
  · rw [if_neg hc] at h
    simp only [DecayEngine.ReinforcementResult.mk.injEq] at h
    rw [← h.1]
    push_neg at hc
    constructor <;> linarith

theorem applyDARow_accum_bounds (now : ℝ) (m row : Memory)
    (hp : DecayEngine.shouldProtect m.tags = false)
    (ha : 0 ≤ MemoryStore.accumOf m) :
    0 ≤ MemoryStore.accumOf (MemoryStore.applyDARow now m row) ∧
      MemoryStore.accumOf (MemoryStore.applyDARow now m row) < 1/2 := by
  unfold MemoryStore.applyDARow
  dsimp only
  simp only [hp, Bool.false_eq_true, if_false]
  by_cases hw : DecayEngine.shouldWriteDecay m.importance
      (DecayEngine.computeDecay m.importance (MemoryStore.daysIdle now m)
        m.memoryType)
  · simp only [hw, if_true]
    rcases hre : DecayEngine.computeReinforcement
        (DecayEngine.computeDecay m.importance (MemoryStore.daysIdle now m)
          m.memoryType) (MemoryStore.accumOf m) with ⟨na, sw, ni⟩
    have hb := computeReinforcement_newAccum_bounds ha hre
    cases sw <;> cases ni <;>
      simpa [MemoryStore.accumOf] using hb
  · simp only [hw, if_false]
    rcases hre : DecayEngine.computeReinforcement m.importance
        (MemoryStore.accumOf m) with ⟨na, sw, ni⟩
    have hb := computeReinforcement_newAccum_bounds ha hre
    cases sw <;> cases ni <;>
      simpa [MemoryStore.accumOf] using hb

/-- C7 (amended): the maintenance pass always writes the reinforcement
accumulator back with a value in the interval from 0 (inclusive) to the
write-back threshold 0.5 (exclusive), provided the stored accumulator was
nonnegative — both in the record returned to the caller and in every stored
row it rewrites. As a global invariant over all reachable states the claim is
false, and the accumulator is not hidden from callers: it is stored in the
record's metadata under the key reinforcement_accum and returned with the
record, and save/update accept caller metadata that can seed it outside the
interval — see the counterexample. -/
theorem claim_C7_accumulator_range :
    (∀ imp a : ℝ, 0 ≤ a →
      0 ≤ (DecayEngine.computeReinforcement imp a).newAccum ∧
        (DecayEngine.computeReinforcement imp a).newAccum < 1/2) ∧
    (∀ (now : ℝ) (m : Memory) (s : Store),
      0 ≤ MemoryStore.accumOf m →
      DecayEngine.shouldProtect m.tags = false →
      (0 ≤ MemoryStore.accumOf
          (MemoryStore.applyDecayAndReinforcement now m s).1 ∧
        MemoryStore.accumOf
          (MemoryStore.applyDecayAndReinforcement now m s).1 < 1/2) ∧
      ∀ row ∈ (MemoryStore.applyDecayAndReinforcement now m s).2,
        row.id = m.id →
        0 ≤ MemoryStore.accumOf row ∧ MemoryStore.accumOf row < 1/2) := by
  constructor
  · intro imp a ha
    exact computeReinforcement_newAccum_bounds ha rfl
  · intro now m s ha hp
    constructor
    · rw [applyDA_fst, maintainMemory_eq_applyDARow]
      exact applyDARow_accum_bounds now m m hp ha
    · intro row hrow hrowid
      rw [applyDA_snd_map] at hrow
      unfold MemoryStore.updateRow at hrow
      obtain ⟨a', ha', haeq⟩ := List.mem_map.mp hrow
      by_cases hid : a'.id = m.id
      · rw [if_pos hid] at haeq
        rw [← haeq]
        exact applyDARow_accum_bounds now m a' hp ha
      · rw [if_neg hid] at haeq
        rw [← haeq] at hrowid
        exact absurd hrowid hid

/-- C7 witness: one reinforcement step from accumulator 0, and the
maintenance pass on the unprotected record mHello with accumulator 0. -/
theorem claim_C7_accumulator_range_witness :
    (0 ≤ (DecayEngine.computeReinforcement 5 0).newAccum ∧
      (DecayEngine.computeReinforcement 5 0).newAccum < 1/2) ∧
    ((0 ≤ MemoryStore.accumOf
        (MemoryStore.applyDecayAndReinforcement 0 mHello [mHello]).1 ∧
      MemoryStore.accumOf
        (MemoryStore.applyDecayAndReinforcement 0 mHello [mHello]).1 < 1/2) ∧
    ∀ row ∈ (MemoryStore.applyDecayAndReinforcement 0 mHello [mHello]).2,
      row.id = mHello.id →
      0 ≤ MemoryStore.accumOf row ∧ MemoryStore.accumOf row < 1/2) :=
  ⟨claim_C7_accumulator_range.1 5 0 le_rfl,
    claim_C7_accumulator_range.2 0 mHello [mHello] (le_refl 0) rfl⟩

theorem save_accum_eval :
    MemoryStore.save hash0 embed0 "a1" 0 "ac" ⟨some 7⟩ [] 5 "general" [] =
      .ok (mAccum, [mAccum]) := by
  unfold MemoryStore.save hash0 embed0 mAccum
  simp only [List.find?_nil]
  rw [show max 1 (min 10 (5:ℝ)) = 5 by
    rw [min_eq_right (by norm_num : (5:ℝ) ≤ 10), max_eq_right (by norm_num : (1:ℝ) ≤ 5)]]
  rfl

/-- C7 counterexample: saving with caller metadata whose reinforcement_accum
key is 7 succeeds; the stored (and returned) record's accumulator is 7, far
outside the interval from 0 to 0.5, and it sits in the record's metadata
returned to the caller. The state is reachable, so the claimed invariant
fails. -/
theorem claim_C7_counterexample :
    MemoryStore.save hash0 embed0 "a1" 0 "ac" ⟨some 7⟩ [] 5 "general" [] =
      .ok (mAccum, [mAccum]) ∧
    Reachable [mAccum] ∧ mAccum ∈ [mAccum] ∧
    mAccum.metadata.reinforcement_accum = some 7 ∧
    ¬ (MemoryStore.accumOf mAccum < 1/2) := by
  refine ⟨save_accum_eval, Reachable.save Reachable.nil save_accum_eval,
    by simp, rfl, ?_⟩
  show ¬ ((7:ℝ) < 1/2)
  norm_num

/-- C10 witness: the sample search over the one-record store [mHello]: the
hit is maintained and stored back. -/
theorem claim_C10_search_frame_witness :
    [mHelloTouched] = [mHello].map (fun m =>
      if (3/10:ℝ) ≤ cosineSimilarityVal (embed0 "q") m.embedding
      then MemoryStore.maintainMemory 0 m else m) :=
  claim_C10_search_frame embed0 0 "q" 5 (3/10) [mHello]
    [⟨mHelloTouched, 1⟩] [mHelloTouched] (by simp) search_hello_eval

end LTM
